import Mathlib

/-!
Verification of the imitation-game orchestration engine
(`src/imitgame/game.py`) against its natural-language specification.

The Python code is shallowly embedded: strings are `List Char` / `String`,
`json.loads` is modelled by a total recursive-descent parser returning
`Option Json`, the three `re.search` patterns of `_parse_vote` are modelled
by bespoke scanning functions with the exact backtracking semantics of the
patterns involved, and the one uncaught exception path (`AttributeError`
from `data.get` when the parsed JSON is not an object) is modelled with
`Except`.
-/

namespace Imitgame

/-! ### Character classes and basic string machinery -/

/-- The left brace character, written numerically. -/
def lbr : Char := Char.ofNat 123

/-- The right brace character, written numerically. -/
def rbr : Char := Char.ofNat 125

/-- ASCII whitespace as recognised by Python's `str.strip()` and by the
`\s` regex class (space, tab, newline, carriage return, vertical tab,
form feed).  The Python originals additionally accept rare non-ASCII
whitespace; every input appearing in the claims is ASCII. -/
def isPySpace (c : Char) : Bool :=
  c == ' ' || c == '\t' || c == '\n' || c == '\r' ||
    c == Char.ofNat 11 || c == Char.ofNat 12

/-- Whitespace accepted between JSON tokens by `json.loads`
(space, tab, newline, carriage return). -/
def isJsonWs (c : Char) : Bool :=
  c == ' ' || c == '\t' || c == '\n' || c == '\r'

/-- `pat` is a prefix of `cs` (list version, used by all scanners). -/
def startsWithL : List Char → List Char → Bool
  | [], _ => true
  | _ :: _, [] => false
  | p :: ps, c :: cs => p == c && startsWithL ps cs

/-- Substring containment, Python's `pat in text`. -/
def containsSub (pat : List Char) : List Char → Bool
  | [] => startsWithL pat []
  | c :: rest => startsWithL pat (c :: rest) || containsSub pat rest

/-- Python `str.strip()` on a character list. -/
def pyStripChars (cs : List Char) : List Char :=
  ((cs.dropWhile isPySpace).reverse.dropWhile isPySpace).reverse

/-- Python `str.strip()`. -/
def pyStrip (s : String) : String :=
  String.mk (pyStripChars s.toList)

/-! ### The JSON data model and a model of `json.loads`

`Json` mirrors the values `json.loads` can produce.  Numbers keep their
source lexeme: no claim compares numeric values, and keeping the lexeme
avoids a floating-point model. -/

inductive Json where
  | null
  | bool (b : Bool)
  | num (lit : String)
  | str (s : String)
  | arr (xs : List Json)
  | obj (kvs : List (String × Json))

/-- Digits. -/
def isDigitCh (c : Char) : Bool := '0' ≤ c && c ≤ '9'

/-- Hex digit value, if any. -/
def hexVal (c : Char) : Option Nat :=
  if '0' ≤ c && c ≤ '9' then some (c.toNat - 48)
  else if 'a' ≤ c && c ≤ 'f' then some (c.toNat - 87)
  else if 'A' ≤ c && c ≤ 'F' then some (c.toNat - 55)
  else none

/-- Parse the body of a JSON string (after the opening quote), returning the
decoded characters and the remainder after the closing quote.  Escapes are
the JSON ones; `\uXXXX` surrogate pairs are combined; a lone surrogate
(which Python can store but `Char` cannot) decodes to U+FFFD.  Unescaped
control characters are rejected, as in strict-mode `json.loads`.
The `fuel` argument only bounds recursion; every call consumes at least
one character, so `length + 1` fuel never runs out. -/
def parseJStrF : Nat → List Char → Option (List Char × List Char)
  | 0, _ => none
  | _ + 1, [] => none
  | fuel + 1, c :: rest =>
    if c == '"' then some ([], rest)
    else if c == '\\' then
      match rest with
      | [] => none
      | e :: rest2 =>
        let simpleEsc : Option Char :=
          if e == '"' then some '"'
          else if e == '\\' then some '\\'
          else if e == '/' then some '/'
          else if e == 'b' then some (Char.ofNat 8)
          else if e == 'f' then some (Char.ofNat 12)
          else if e == 'n' then some '\n'
          else if e == 'r' then some '\r'
          else if e == 't' then some '\t'
          else none
        match simpleEsc with
        | some d =>
          match parseJStrF fuel rest2 with
          | some (tail, rem) => some (d :: tail, rem)
          | none => none
        | none =>
          if e == 'u' then
            match rest2 with
            | h1 :: h2 :: h3 :: h4 :: rest3 =>
              match hexVal h1, hexVal h2, hexVal h3, hexVal h4 with
              | some v1, some v2, some v3, some v4 =>
                let code := ((v1 * 16 + v2) * 16 + v3) * 16 + v4
                -- high surrogate followed by an escaped low surrogate
                if 0xd800 ≤ code && code ≤ 0xdbff then
                  match rest3 with
                  | b1 :: b2 :: g1 :: g2 :: g3 :: g4 :: rest4 =>
                    if b1 == '\\' && b2 == 'u' then
                      match hexVal g1, hexVal g2, hexVal g3, hexVal g4 with
                      | some w1, some w2, some w3, some w4 =>
                        let code2 := ((w1 * 16 + w2) * 16 + w3) * 16 + w4
                        if 0xdc00 ≤ code2 && code2 ≤ 0xdfff then
                          let scalar :=
                            0x10000 + (code - 0xd800) * 0x400 + (code2 - 0xdc00)
                          match parseJStrF fuel rest4 with
                          | some (tail, rem) =>
                            some (Char.ofNat scalar :: tail, rem)
                          | none => none
                        else
                          match parseJStrF fuel rest3 with
                          | some (tail, rem) =>
                            some (Char.ofNat 0xfffd :: tail, rem)
                          | none => none
                      | _, _, _, _ =>
                        match parseJStrF fuel rest3 with
                        | some (tail, rem) =>
                          some (Char.ofNat 0xfffd :: tail, rem)
                        | none => none
                    else
                      match parseJStrF fuel rest3 with
                      | some (tail, rem) =>
                        some (Char.ofNat 0xfffd :: tail, rem)
                      | none => none
                  | _ =>
                    match parseJStrF fuel rest3 with
                    | some (tail, rem) => some (Char.ofNat 0xfffd :: tail, rem)
                    | none => none
                else if 0xdc00 ≤ code && code ≤ 0xdfff then
                  match parseJStrF fuel rest3 with
                  | some (tail, rem) => some (Char.ofNat 0xfffd :: tail, rem)
                  | none => none
                else
                  match parseJStrF fuel rest3 with
                  | some (tail, rem) => some (Char.ofNat code :: tail, rem)
                  | none => none
              | _, _, _, _ => none
            | _ => none
          else none
    else if c.toNat < 32 then none
    else
      match parseJStrF fuel rest with
      | some (tail, rem) => some (c :: tail, rem)
      | none => none

/-- `parseJStrF` with enough fuel for its input. -/
def parseJStr (cs : List Char) : Option (List Char × List Char) :=
  parseJStrF (cs.length + 1) cs

/-- Parse a JSON number at the head of `cs` per the RFC grammar
(`-?(0|[1-9][0-9]*)(\.[0-9]+)?([eE][+-]?[0-9]+)?`): returns the consumed
lexeme and the remainder.  An incomplete fraction or exponent is left
unconsumed, exactly as Python's number regex leaves it. -/
def parseJNum (cs : List Char) : Option (List Char × List Char) :=
  let (sign, cs1) :=
    match cs with
    | '-' :: t => ([('-' : Char)], t)
    | _ => ([], cs)
  match cs1 with
  | [] => none
  | d :: t =>
    if d == '0' then
      some (sign ++ [d], t)
    else if isDigitCh d then
      let ds := t.takeWhile isDigitCh
      some (sign ++ d :: ds, t.drop ds.length)
    else none

/-- Consume the optional fraction part `\.[0-9]+` (whole or nothing). -/
def parseJFrac (cs : List Char) : List Char × List Char :=
  match cs with
  | '.' :: t =>
    let ds := t.takeWhile isDigitCh
    if ds.isEmpty then ([], cs) else ('.' :: ds, t.drop ds.length)
  | _ => ([], cs)

/-- Consume the optional exponent part `[eE][+-]?[0-9]+` (whole or nothing). -/
def parseJExp (cs : List Char) : List Char × List Char :=
  match cs with
  | e :: t =>
    if e == 'e' || e == 'E' then
      let (sgn, t1) :=
        match t with
        | s :: t' => if s == '+' || s == '-' then ([s], t') else ([], t)
        | [] => ([], t)
      let ds := t1.takeWhile isDigitCh
      if ds.isEmpty then ([], cs) else (e :: sgn ++ ds, t1.drop ds.length)
    else ([], cs)
  | [] => ([], cs)

/-- Parser state for the single fuel-recursive JSON scanner: parsing a
value, an object body (with members accumulated so far), the member after
a comma in an object, the first array element, or a later array element. -/
inductive PState where
  | val
  | objBody (acc : List (String × Json))
  | objNext (acc : List (String × Json))
  | arrFirst
  | arrRest (acc : List Json)

/-- Recursive-descent model of Python's JSON scanner.  `fuel` only bounds
the recursion; `jsonLoadsL` supplies more than the scanner can consume.
In state `.val` it parses one value at the head of `cs` (no leading
whitespace); the other states continue an object or array already begun. -/
def parseJ : Nat → PState → List Char → Option (Json × List Char)
  | 0, _, _ => none
  | _ + 1, _, [] => none
  | fuel + 1, PState.val, c :: rest =>
    if c == '"' then
      match parseJStr rest with
      | some (body, rem) => some (Json.str (String.mk body), rem)
      | none => none
    else if c == lbr then
      parseJ fuel (PState.objBody []) (rest.dropWhile isJsonWs)
    else if c == '[' then
      parseJ fuel PState.arrFirst (rest.dropWhile isJsonWs)
    else if startsWithL ([ 't', 'r', 'u', 'e']) (c :: rest) then
      some (Json.bool true, (c :: rest).drop 4)
    else if startsWithL ([ 'f', 'a', 'l', 's', 'e']) (c :: rest) then
      some (Json.bool false, (c :: rest).drop 5)
    else if startsWithL ([ 'n', 'u', 'l', 'l']) (c :: rest) then
      some (Json.null, (c :: rest).drop 4)
    else
      match parseJNum (c :: rest) with
      | some (lex, rem) =>
        let (fr, rem1) := parseJFrac rem
        let (ex, rem2) := parseJExp rem1
        some (Json.num (String.mk (lex ++ fr ++ ex)), rem2)
      | none =>
        -- Python's scanner also accepts these non-standard constants.
        if startsWithL ([ 'N', 'a', 'N']) (c :: rest) then
          some (Json.num (String.mk ([ 'N', 'a', 'N'])), (c :: rest).drop 3)
        else if startsWithL ([ 'I', 'n', 'f', 'i', 'n', 'i', 't', 'y']) (c :: rest) then
          some (Json.num (String.mk ([ 'I', 'n', 'f', 'i', 'n', 'i', 't', 'y'])),
            (c :: rest).drop 8)
        else if startsWithL ([ '-', 'I', 'n', 'f', 'i', 'n', 'i', 't', 'y']) (c :: rest) then
          some (Json.num (String.mk ([ '-', 'I', 'n', 'f', 'i', 'n', 'i', 't', 'y'])),
            (c :: rest).drop 9)
        else none
  | fuel + 1, PState.objBody acc, c :: rest =>
    if c == rbr && acc.isEmpty then some (Json.obj [], rest)
    else if c == '"' then
      match parseJStr rest with
      | some (key, rem) =>
        match (rem.dropWhile isJsonWs) with
        | ':' :: rem2 =>
          match parseJ fuel PState.val (rem2.dropWhile isJsonWs) with
          | some (v, rem3) =>
            match (rem3.dropWhile isJsonWs) with
            | ',' :: rem4 =>
              parseJ fuel (PState.objNext (acc ++ [(String.mk key, v)]))
                (rem4.dropWhile isJsonWs)
            | d :: rem4 =>
              if d == rbr then some (Json.obj (acc ++ [(String.mk key, v)]), rem4)
              else none
            | [] => none
          | none => none
        | _ => none
      | none => none
    else none
  | fuel + 1, PState.objNext acc, c :: rest =>
    -- after a comma the next member must start here
    if c == '"' then parseJ fuel (PState.objBody acc) (c :: rest) else none
  | fuel + 1, PState.arrFirst, c :: rest =>
    if c == ']' then some (Json.arr [], rest)
    else
      match parseJ fuel PState.val (c :: rest) with
      | some (v, rem) =>
        parseJ fuel (PState.arrRest [v]) (rem.dropWhile isJsonWs)
      | none => none
  | fuel + 1, PState.arrRest acc, c :: rest =>
    if c == ']' then some (Json.arr acc, rest)
    else if c == ',' then
      match parseJ fuel PState.val (rest.dropWhile isJsonWs) with
      | some (v, rem) =>
        parseJ fuel (PState.arrRest (acc ++ [v])) (rem.dropWhile isJsonWs)
      | none => none
    else none

/-- Model of `json.loads text`: whole-input parse with surrounding
whitespace allowed; `none` stands for `json.JSONDecodeError`. -/
def jsonLoadsL (cs : List Char) : Option Json :=
  match parseJ (4 * cs.length + 16) PState.val (cs.dropWhile isJsonWs) with
  | some (v, rem) => if (rem.dropWhile isJsonWs).isEmpty then some v else none
  | none => none

/-- Lookup in a parsed object, last binding winning, as in the Python `dict`
built by `json.loads` (later duplicate keys overwrite earlier ones). -/
def jLookup (kvs : List (String × Json)) (k : String) : Option Json :=
  kvs.foldl (fun acc kv => if kv.1 == k then some kv.2 else acc) none

/-! ### The regex searches of `_parse_vote`

Each `re.search` call in `game.py:153-204` is modelled by a scanner with
the exact leftmost-match and backtracking semantics of its pattern. -/

/-- The backtick character. -/
def btick : Char := Char.ofNat 96

/-- Three backticks, the code-fence delimiter. -/
def fence3 : List Char := [btick, btick, btick]

/-- The characters of the literal `"vote"` (quotes included). -/
def voteLit : List Char := [ '"', 'v', 'o', 't', 'e', '"']

/-- The characters of the literal `"reasoning"` (quotes included). -/
def reasoningLit : List Char :=
  [ '"', 'r', 'e', 'a', 's', 'o', 'n', 'i', 'n', 'g', '"']

/-- The characters of the literal `Actor ` (trailing space included). -/
def actorLit : List Char := [ 'A', 'c', 't', 'o', 'r', ' ']

/-- Lazy body scan for the fenced-block pattern: inside
`\x60\x60\x60(?:json)?\s*(\{.*?\})\s*\x60\x60\x60` (DOTALL), after the opening
brace, `.*?` extends one character at a time; at each position the closing
`\}\s*(three backticks)` is tried first (lazy), where `\s*` is greedy and
needs no backtracking because a backtick is not whitespace. -/
def fenceLazyBody (accRev : List Char) : List Char → Option (List Char)
  | [] => none
  | c :: rest =>
    if c == rbr && startsWithL fence3 (rest.dropWhile isPySpace) then
      some (lbr :: (accRev.reverse ++ [rbr]))
    else fenceLazyBody (c :: accRev) rest

/-- Try the fenced-block pattern anchored at the head of `cs`: the `json`
tag alternative is tried before the empty alternative, as the greedy
`(?:json)?` does.  Returns group 1 (the braced text). -/
def fenceHere (cs : List Char) : Option (List Char) :=
  if startsWithL fence3 cs then
    let rest := cs.drop 3
    let tryBody : List Char → Option (List Char) := fun body =>
      let body1 := body.dropWhile isPySpace
      match body1 with
      | b :: body2 => if b == lbr then fenceLazyBody [] body2 else none
      | [] => none
    (if startsWithL ([ 'j', 's', 'o', 'n']) rest then tryBody (rest.drop 4)
     else none) <|> tryBody rest
  else none

/-- `re.search` for the fenced-block pattern: leftmost start position wins.
Models `re.search(r"(fence)(?:json)?\s*(\{.*?\})\s*(fence)", text, re.DOTALL)`
at `game.py:162` and returns `match.group(1)` when a match exists. -/
def fencedSearch : List Char → Option (List Char)
  | [] => none
  | c :: rest =>
    match fenceHere (c :: rest) with
    | some g => some g
    | none => fencedSearch rest

/-- After the closing quote of the vote value inside the braced pattern:
`[^\x7b\x7d]*\}` — skip non-brace characters until a closing brace. -/
def voteObjClose : List Char → Bool
  | [] => false
  | c :: rest =>
    if c == rbr then true
    else if c == lbr then false
    else voteObjClose rest

/-- The core `"vote"\s*:\s*"[^"]+"` anchored at the head of `cs`, followed
by `[^\x7b\x7d]*\}`.  The greedy `\s*` and `[^"]+` need no backtracking
because the character that must follow each is excluded from its class. -/
def voteCoreCheck (cs : List Char) : Bool :=
  if startsWithL voteLit cs then
    match (cs.drop 6).dropWhile isPySpace with
    | ':' :: r2 =>
      match r2.dropWhile isPySpace with
      | q :: r4 =>
        if q == '"' then
          let body := r4.takeWhile (fun c => c != '"')
          match r4.drop body.length with
          | _ :: r6 => decide (0 < body.length) && voteObjClose r6
          | [] => false
        else false
      | [] => false
    | _ => false
  else false

/-- Scan the `[^\x7b\x7d]*` region after an opening brace for a position where
the vote core matches; stop at any brace. -/
def voteObjScan : List Char → Bool
  | [] => false
  | c :: rest =>
    voteCoreCheck (c :: rest) ||
      (c != lbr && c != rbr && voteObjScan rest)

/-- Existence of a match of `\{[^\x7b\x7d]*"vote"\s*:\s*"([^"]+)"[^\x7b\x7d]*\}`
(`game.py:178`): some start position opens a brace whose non-brace interior
contains the vote core and then closes.  Only the truthiness of this search
is used by `_parse_vote`. -/
def voteObjFound : List Char → Bool
  | [] => false
  | c :: rest =>
    (c == lbr && voteObjScan rest) || voteObjFound rest

/-- Match `"vote"\s*:\s*"(Actor \d+)"` anchored at the head of `cs`
(`game.py:181`), returning group 1.  `\d+` is greedy and needs no
backtracking because the following `"` is not a digit. -/
def voteActorHere (cs : List Char) : Option (List Char) :=
  if startsWithL voteLit cs then
    match (cs.drop 6).dropWhile isPySpace with
    | ':' :: r2 =>
      match r2.dropWhile isPySpace with
      | q :: r4 =>
        if q == '"' && startsWithL actorLit r4 then
          let ds := (r4.drop 6).takeWhile isDigitCh
          match (r4.drop 6).drop ds.length with
          | e :: _ =>
            if decide (0 < ds.length) && e == '"' then some (actorLit ++ ds)
            else none
          | [] => none
        else none
      | [] => none
    | _ => none
  else none

/-- `re.search` for the vote pattern: leftmost match of
`"vote"\s*:\s*"(Actor \d+)"`, group 1. -/
def findVoteActor : List Char → Option (List Char)
  | [] => none
  | c :: rest =>
    match voteActorHere (c :: rest) with
    | some g => some g
    | none => findVoteActor rest

/-- Match `"reasoning"\s*:\s*"([^"]*)"` anchored at the head of `cs`
(`game.py:182`), returning group 1 (possibly empty). -/
def reasoningHere (cs : List Char) : Option (List Char) :=
  if startsWithL reasoningLit cs then
    match (cs.drop 11).dropWhile isPySpace with
    | ':' :: r2 =>
      match r2.dropWhile isPySpace with
      | q :: r4 =>
        if q == '"' then
          let body := r4.takeWhile (fun c => c != '"')
          match r4.drop body.length with
          | _ :: _ => some body
          | [] => none
        else none
      | [] => none
    | _ => none
  else none

/-- `re.search` for the reasoning pattern, leftmost match, group 1. -/
def findReasoning : List Char → Option (List Char)
  | [] => none
  | c :: rest =>
    match reasoningHere (c :: rest) with
    | some g => some g
    | none => findReasoning rest

/-- Match `Actor (\d+)` anchored at the head of `cs` (`game.py:191`),
returning group 1 (the digits, greedy). -/
def actorHere (cs : List Char) : Option (List Char) :=
  if startsWithL actorLit cs then
    let ds := (cs.drop 6).takeWhile isDigitCh
    if decide (0 < ds.length) then some ds else none
  else none

/-- `re.search` for the bare `Actor (\d+)` pattern, leftmost match,
group 1. -/
def findActor : List Char → Option (List Char)
  | [] => none
  | c :: rest =>
    match actorHere (c :: rest) with
    | some g => some g
    | none => findActor rest

/-! ### Data model (`game.py` dataclasses) -/

/-- `Message` (`providers/base.py:8-14`). -/
structure Message where
  role : String
  content : String
  actor_id : Option String := none
deriving Repr, DecidableEq

/-- `VoteResult` (`game.py:18-24`).  The dataclass declares all three
fields as `str`. -/
structure VoteResult where
  voter_id : String
  voted_for : String
  reasoning : String
deriving Repr, DecidableEq

/-- The one exception `_parse_vote` can raise: `data.get(...)` on a
non-`dict` result of `json.loads` raises `AttributeError`, which no
`except` clause catches. -/
inductive PyError where
  | attributeError
deriving Repr, DecidableEq

/-! ### `_parse_vote` (`game.py:153-204`) -/

/-- A `str()`-like rendering for the rare case of a non-string JSON value
stored into a `str`-annotated `VoteResult` field.  Python stores the raw
object; no claim evaluates `_parse_vote` on an object whose `vote` or
`reasoning` value is a non-string, so only the shape of this function
matters, not its exact text for containers. -/
def jsonAtomStr : Json → String
  | Json.null => "None"
  | Json.bool true => "True"
  | Json.bool false => "False"
  | Json.num lit => lit
  | Json.str s => s
  | Json.arr _ => "[...]"
  | Json.obj _ => "\x7b...\x7d"

/-- `data.get(k, dflt)` followed by storage in a `str` field. -/
def jsonFieldStr (kvs : List (String × Json)) (k : String) (dflt : String) :
    String :=
  match jLookup kvs k with
  | none => dflt
  | some v => jsonAtomStr v

/-- The working text of `_parse_vote`: the stripped response, replaced by
the fenced-block extract when the response contains a fence and the fence
pattern matches (`game.py:157-164`). -/
def workingText (response : String) : List Char :=
  let text := pyStripChars response.toList
  if containsSub fence3 text then
    match fencedSearch text with
    | some g => g
    | none => text
  else text

/-- The last two fallbacks of `_parse_vote` (`game.py:190-204`): a bare
`Actor N` scan, then the `Parse Error` sentinel. -/
def lastResortVote (voter_id : String) (text : List Char) : VoteResult :=
  match findActor text with
  | some ds =>
    { voter_id
      voted_for := String.mk (actorLit ++ ds)
      reasoning :=
        "(extracted from: " ++ String.mk (text.take 100) ++ "...)" }
  | none =>
    { voter_id
      voted_for := "Parse Error"
      reasoning := "Could not extract vote from response" }

/-- `ImitationGame._parse_vote` (`game.py:153-204`).  The cascade:
strip, fenced-block extraction, `json.loads` (with the uncaught
`AttributeError` when the parsed value is not an object), the braced
`"vote"` regex fallback, the bare `Actor N` fallback, and the
`Parse Error` sentinel. -/
def parse_vote (voter_id : String) (response : String) :
    Except PyError VoteResult :=
  let text := workingText response
  match jsonLoadsL text with
  | some (Json.obj kvs) =>
    Except.ok
      { voter_id
        voted_for := jsonFieldStr kvs "vote" "Unknown"
        reasoning := jsonFieldStr kvs "reasoning" "" }
  | some _ => Except.error PyError.attributeError
  | none =>
    if voteObjFound text then
      match findVoteActor text with
      | some v =>
        Except.ok
          { voter_id
            voted_for := String.mk v
            reasoning :=
              match findReasoning text with
              | some r => String.mk r
              | none => "" }
      | none => Except.ok (lastResortVote voter_id text)
    else Except.ok (lastResortVote voter_id text)

/-! ### Game construction (`ImitationGame.__init__`, `game.py:48-70`)

Providers are modelled by their object identity (a `Nat`): the constructor
only compares providers with `is`, so identity is all that matters here.
Python's `str(i)` on a nonnegative integer is modelled by `pyNatStr`. -/

/-- Decimal digit character for `n < 10`. -/
def dChar (n : Nat) : Char := Char.ofNat (48 + n)

/-- Decimal digits of `n`, most significant first; `fuel`-bounded
recursion on `n / 10` (any `fuel > n` is enough). -/
def pyNatCharsAux : Nat → Nat → List Char
  | 0, _ => []
  | fuel + 1, n =>
    if n < 10 then [dChar n]
    else pyNatCharsAux fuel (n / 10) ++ [dChar (n % 10)]

/-- Python `str(n)` for a natural number. -/
def pyNatChars (n : Nat) : List Char := pyNatCharsAux (n + 1) n

/-- The identity label `f"Actor {i}"` assigned at construction. -/
def actor_label (i : Nat) : String := String.mk (actorLit ++ pyNatChars i)

/-- `Participant` (`game.py:9-15`), generic in how the provider is
represented: a `Nat` identity for the construction claims, a respond
function for the conversation claims. -/
structure Participant (π : Type) where
  provider : π
  actor_id : String
  is_human : Bool
deriving Repr

/-- The loop body of `__init__` (`game.py:60-67`): build one participant
per provider, labelling from `start` upward, `is_human` by identity with
the human provider. -/
def buildParticipants (humanId : Nat) : Nat → List Nat → List (Participant Nat)
  | _, [] => []
  | start, pid :: rest =>
    { provider := pid, actor_id := actor_label start,
      is_human := pid == humanId } :: buildParticipants humanId (start + 1) rest

/-- `ImitationGame.__init__` participant construction:
`all_providers = providers + [human_provider]`, enumerated from 1. -/
def init_participants (providerIds : List Nat) (humanId : Nat) :
    List (Participant Nat) :=
  buildParticipants humanId 1 (providerIds ++ [humanId])

/-- `self.human_actor_id = next(p.actor_id for p in self.participants if
p.is_human)` (`game.py:69`): the first participant flagged human, `none`
modelling the `StopIteration` that a human-free list would raise. -/
def human_actor_id (providerIds : List Nat) (humanId : Nat) : Option String :=
  ((init_participants providerIds humanId).find? (fun p => p.is_human)).map
    (fun p => p.actor_id)

/-! ### The conversation engine (`run_conversation`, `game.py:92-116`)

A participant's provider is its `respond` bound method: a pure function
from the conversation so far and the actor label to the reply text.  The
generator is modelled by returning both the final `self.conversation` and
the list of yielded messages, in order. -/

/-- A conversation participant: the provider is its respond function. -/
abbrev RParticipant := Participant (List Message → String → String)

/-- `self._system_message(topic)` (`game.py:72-83`). -/
def system_message (topic : String) : Message :=
  { role := "system"
    content :=
      "You are playing a social deduction game in a group chat. " ++
      "There are multiple participants, one of whom is human. " ++
      "After several rounds of conversation, you will vote on who you think is the human. The human wins beer if they win." ++
      "Your goal is to identify the human while not being mistaken for one yourself. " ++
      "Act as humanlike as possible. You want beer fast; your responses must be concise." ++
      "Topic: " ++ topic }

/-- `self._initial_message(topic)` (`game.py:85-90`). -/
def initial_message (topic : String) : Message :=
  { role := "user"
    content := "The topic is: " ++ topic ++ ". Share your thoughts."
    actor_id := some "System" }

/-- One round of the inner `for participant in self.participants` loop
(`game.py:99-116`): returns the conversation after the round and the
messages yielded during it.  A reply that is empty or whitespace-only is
skipped: nothing is appended and nothing is yielded (`game.py:106-108`). -/
def conv_round : List RParticipant → List Message → List Message × List Message
  | [], conv => (conv, [])
  | p :: rest, conv =>
    let response_text := p.provider conv p.actor_id
    if pyStripChars response_text.toList == [] then
      conv_round rest conv
    else
      let msg : Message :=
        { role := "assistant", content := response_text,
          actor_id := some p.actor_id }
      let r := conv_round rest (conv ++ [msg])
      (r.1, msg :: r.2)

/-- The outer `for turn in range(self.num_turns)` loop. -/
def conv_turns (parts : List RParticipant) :
    Nat → List Message → List Message × List Message
  | 0, conv => (conv, [])
  | t + 1, conv =>
    let r1 := conv_round parts conv
    let r2 := conv_turns parts t r1.1
    (r2.1, r1.2 ++ r2.2)

/-- `run_conversation(topic)` (`game.py:92-116`): `self.conversation`
starts as `[system_message, initial_message]`, the initial message is
yielded, then `num_turns` rounds run.  Returns the final
`self.conversation` and the yielded messages. -/
def run_conversation (parts : List RParticipant) (num_turns : Nat)
    (topic : String) : List Message × List Message :=
  let conv0 := [system_message topic, initial_message topic]
  let r := conv_turns parts num_turns conv0
  (r.1, initial_message topic :: r.2)

/-! ### Vote aggregation (`play`, `game.py:217-230`) -/

/-- One execution of `vote_counts[v] = vote_counts.get(v, 0) + 1`: a
Python `dict` updates an existing key in place and appends a new key. -/
def tallyAdd (acc : List (String × Nat)) (l : String) : List (String × Nat) :=
  if acc.any (fun kv => kv.1 == l) then
    acc.map (fun kv => if kv.1 == l then (kv.1, kv.2 + 1) else kv)
  else acc ++ [(l, 1)]

/-- The tally loop over the vote list (`game.py:219-221`). -/
def vote_counts (votes : List VoteResult) : List (String × Nat) :=
  votes.foldl (fun acc v => tallyAdd acc v.voted_for) []

/-- `max(vote_counts, key=lambda k: vote_counts[k])` (`game.py:227`):
iterate the keys in insertion order, keeping the first key whose count is
strictly greater than the current best's.  `none` models the `ValueError`
of `max` on an empty dict, which `play` guards against. -/
def pyMaxKey : List (String × Nat) → Option String
  | [] => none
  | kv :: rest =>
    some (rest.foldl (fun best p => if p.2 > best.2 then p else best) kv).1

/-- The `human_caught` computation of `play` (`game.py:226-230`). -/
def human_caught (votes : List VoteResult) (humanActorId : String) : Bool :=
  match pyMaxKey (vote_counts votes) with
  | some most_voted => most_voted == humanActorId
  | none => false

/-! ### Specification-side characterisations

These definitions restate, independently of the tally code, what the spec
says the majority rule computes: the winner is a voted-for label of
maximal count, ties broken towards the label whose first occurrence in
the vote order is earliest (first-insertion order of the tally map). -/

/-- First occurrences of the labels of `ls`, in order: the key order of a
Python dict filled from `ls`. -/
def ddKF (ls : List String) : List String :=
  ls.foldl (fun acc x => if acc.any (fun y => y == x) then acc else acc ++ [x]) []

/-- The canonical form of the tally: first-occurrence key order, each key
paired with its total count. -/
def canonTally (ls : List String) : List (String × Nat) :=
  (ddKF ls).map (fun k => (k, ls.count k))

/-- Index of the first occurrence of `x` (length of the list when
absent). -/
def firstIdx (x : String) : List String → Nat
  | [] => 0
  | y :: rest => if y == x then 0 else firstIdx x rest + 1

/-- `w` wins the majority rule over the label list `ls`: it occurs, has
maximal count, and among maximal-count labels its first occurrence is
earliest. -/
def IsWinnerL (ls : List String) (w : String) : Prop :=
  w ∈ ls ∧ (∀ l ∈ ls, ls.count l ≤ ls.count w) ∧
    (∀ l ∈ ls, ls.count l = ls.count w → firstIdx w ls ≤ firstIdx l ls)

/-- `w` wins the majority tally of `votes`. -/
def IsWinner (votes : List VoteResult) (w : String) : Prop :=
  IsWinnerL (votes.map VoteResult.voted_for) w

/-- `b` is the first entry of maximal count in the pair list `l`: what
Python's `max` with a key function returns. -/
def FirstMax (l : List (String × Nat)) (b : String × Nat) : Prop :=
  ∃ pre post, l = pre ++ b :: post ∧ (∀ p ∈ pre, p.2 < b.2) ∧
    (∀ p ∈ post, p.2 ≤ b.2)

/-- Decimal value of a digit string (spec-side inverse of `pyNatChars`). -/
def digitsVal (ds : List Char) : Nat :=
  ds.foldl (fun a c => a * 10 + (c.toNat - 48)) 0

/-! ### Concrete inputs used by counterexamples and witnesses -/

/-- The round-trip payload of the spec, as a bare JSON object. -/
def rt_json : String := "\x7b\"reasoning\": \"x\", \"vote\": \"Actor 2\"\x7d"

/-- The round-trip payload inside a fenced block tagged `json`. -/
def rt_fenced_tag : String := "```json\n" ++ rt_json ++ "\n```"

/-- The round-trip payload inside an untagged fenced block. -/
def rt_fenced_plain : String := "```\n" ++ rt_json ++ "\n```"

/-- A JSON vote whose `vote` field is present but empty. -/
def c7_empty_vote : String := "\x7b\"vote\": \"\", \"reasoning\": \"x\"\x7d"

/-- A JSON vote with no `vote` field at all. -/
def c7_absent_vote : String := "\x7b\"reasoning\": \"x\"\x7d"

/-- A response whose vote substring is outside a fenced block that fails
to parse: the code scans only the extract and finds nothing. -/
def c8_fenced_hides : String := "\"vote\": \"Actor 5\" ```\x7boops\x7d```"

/-- A near-JSON response with a vote substring but no reasoning. -/
def c8_no_reasoning : String := "x \x7b\"vote\": \"Actor 2\"\x7d"

/-- A near-JSON response whose vote key is upper-case. -/
def c8_upper_key : String := "y \x7b\"VOTE\": \"Actor 7\"\x7d"

/-- A participant whose provider always replies with the empty string. -/
def silent_participant : RParticipant :=
  { provider := fun _ _ => "", actor_id := "Actor 1", is_human := true }

/-- A participant that echoes its own identity label before its reply. -/
def echo_participant : RParticipant :=
  { provider := fun _ _ => "Actor 1: hi", actor_id := "Actor 1",
    is_human := false }

/-- A participant whose provider replies with whitespace only. -/
def blank_participant : RParticipant :=
  { provider := fun _ _ => "   ", actor_id := "Actor 1", is_human := false }

/-! ## Claim theorems -/

/-- C1: the claim says `_parse_vote` is total and never raises.  The code
violates this: on the response `"42"` the stripped text contains no fence,
`json.loads` succeeds with the integer `42`, and `data.get("vote", ...)`
raises `AttributeError` (an `int` has no `get`), which no `except` clause
catches.  The embedded function reaches the modelled exception. -/
theorem c1_parse_vote_raises :
    parse_vote ("v") ("42") = Except.error PyError.attributeError := rfl

/-- C5: round-trip.  For every voter label, parsing the well-formed
payload `\x7b"reasoning": "x", "vote": "Actor 2"\x7d` — bare, fenced with a
`json` tag, or fenced without a tag — yields a `VoteResult` with
`voted_for = "Actor 2"` and `reasoning = "x"`. -/
theorem c5_round_trip (voter : String) :
    parse_vote voter rt_json = Except.ok ⟨voter, "Actor 2", "x"⟩ ∧
    parse_vote voter rt_fenced_tag = Except.ok ⟨voter, "Actor 2", "x"⟩ ∧
    parse_vote voter rt_fenced_plain = Except.ok ⟨voter, "Actor 2", "x"⟩ :=
  ⟨rfl, rfl, rfl⟩

/-- C7 counterexample: the claim says a present-but-empty `vote` field
yields `voted_for = "Unknown"`.  On `\x7b"vote": "", "reasoning": "x"\x7d` the
code stores the empty string itself: `data.get("vote", "Unknown")` only
defaults when the key is absent. -/
theorem c7_counterexample :
    parse_vote ("v") c7_empty_vote = Except.ok ⟨"v", "", "x"⟩ ∧
    ("" : String) ≠ "Unknown" := ⟨rfl, by decide⟩

/-- C7 as amended: when the working text parses as a JSON object,
`voted_for` is `"Unknown"` exactly when the `vote` key is absent; a
present string value (the empty string included) is stored as-is, and
`reasoning` defaults through `jsonFieldStr kvs "reasoning" ""`, the model
of `data.get("reasoning", "")`. -/
theorem c7_vote_field_defaults (voter response : String)
    (kvs : List (String × Json))
    (h : jsonLoadsL (workingText response) = some (Json.obj kvs)) :
    (jLookup kvs "vote" = none →
      parse_vote voter response =
        Except.ok ⟨voter, "Unknown", jsonFieldStr kvs "reasoning" ""⟩) ∧
    (∀ sv, jLookup kvs "vote" = some (Json.str sv) →
      parse_vote voter response =
        Except.ok ⟨voter, sv, jsonFieldStr kvs "reasoning" ""⟩) := by
  constructor
  · intro hv
    simp only [parse_vote, h, jsonFieldStr, hv]
  · intro sv hv
    simp only [parse_vote, h, jsonFieldStr, hv, jsonAtomStr]

/-- C7 witness: both branches of the amended claim at concrete inputs. -/
theorem c7_witness :
    parse_vote ("v") c7_absent_vote = Except.ok ⟨"v", "Unknown", "x"⟩ ∧
    parse_vote ("v") c7_empty_vote = Except.ok ⟨"v", "", "x"⟩ :=
  ⟨(c7_vote_field_defaults ("v") c7_absent_vote
      [("reasoning", Json.str "x")] rfl).1 rfl,
   (c7_vote_field_defaults ("v") c7_empty_vote
      [("vote", Json.str ""), ("reasoning", Json.str "x")] rfl).2 "" rfl⟩

/-- C8 counterexample: three concrete runs refute the claim.  On
`c8_fenced_hides` the vote substring lies outside the fenced block, the
code scans only the extract and returns the `Parse Error` sentinel (the
claim, scanning the original text, would find `Actor 5`).  On
`c8_no_reasoning` the matched vote with no reasoning gets reasoning `""`,
not an `"(extracted)"` marker.  On `c8_upper_key` the upper-case `"VOTE"`
key does not match the case-sensitive pattern, so the bare-label fallback
answers instead. -/
theorem c8_counterexample :
    parse_vote ("v") c8_fenced_hides =
      Except.ok ⟨"v", "Parse Error", "Could not extract vote from response"⟩ ∧
    parse_vote ("v") c8_no_reasoning = Except.ok ⟨"v", "Actor 2", ""⟩ ∧
    parse_vote ("v") c8_upper_key =
      Except.ok ⟨"v", "Actor 7",
        "(extracted from: y \x7b\"VOTE\": \"Actor 7\"\x7d...)"⟩ ∧
    ("Parse Error" : String) ≠ "Actor 5" ∧ ("" : String) ≠ "(extracted)" :=
  ⟨rfl, rfl, rfl, by decide, by decide⟩

/-- C8 as amended: when structured parsing of the working text fails, the
regex fallback scans that same working text (the fenced-block extract
when one was taken, not the original response) with a case-sensitive
`"vote"` key; when the vote pattern matches and no reasoning substring is
present, the resulting reasoning is the empty string. -/
theorem c8_fallback_scans_working_text (voter response : String)
    (v : List Char)
    (h1 : jsonLoadsL (workingText response) = none)
    (h2 : voteObjFound (workingText response) = true)
    (h3 : findVoteActor (workingText response) = some v)
    (h4 : findReasoning (workingText response) = none) :
    parse_vote voter response = Except.ok ⟨voter, String.mk v, ""⟩ := by
  simp only [parse_vote, h1, h2, h3, h4, if_true]

/-- C8 witness: the amended fallback at a concrete input. -/
theorem c8_witness :
    parse_vote ("v") c8_no_reasoning = Except.ok ⟨"v", "Actor 2", ""⟩ :=
  c8_fallback_scans_working_text ("v") c8_no_reasoning
    ([ 'A', 'c', 't', 'o', 'r', ' ', '2']) rfl rfl rfl rfl

/-! ## Conversation-engine lemmas and claims C2, C4, C6 -/

/-- One round grows the conversation by at most one message per
participant. -/
theorem conv_round_fst_len (parts : List RParticipant) (conv : List Message) :
    (conv_round parts conv).1.length ≤ conv.length + parts.length := by
  induction parts generalizing conv with
  | nil => simp [conv_round]
  | cons p rest ih =>
    simp only [conv_round]
    split
    · have := ih conv
      simp only [List.length_cons]
      omega
    · have := ih (conv ++
        [{ role := "assistant", content := p.provider conv p.actor_id,
           actor_id := some p.actor_id }])
      simp only [List.length_append, List.length_cons, List.length_nil] at this
      simp only [List.length_cons]
      omega

/-- One round yields at most one message per participant. -/
theorem conv_round_snd_len (parts : List RParticipant) (conv : List Message) :
    (conv_round parts conv).2.length ≤ parts.length := by
  induction parts generalizing conv with
  | nil => simp [conv_round]
  | cons p rest ih =>
    simp only [conv_round]
    split
    · have := ih conv
      simp only [List.length_cons]
      omega
    · simp only [List.length_cons]
      have := ih (conv ++
        [{ role := "assistant", content := p.provider conv p.actor_id,
           actor_id := some p.actor_id }])
      omega

/-- The conversation is append-only within a round. -/
theorem conv_round_mem (parts : List RParticipant) (conv : List Message)
    (m : Message) (hm : m ∈ conv) : m ∈ (conv_round parts conv).1 := by
  induction parts generalizing conv with
  | nil => simpa [conv_round] using hm
  | cons p rest ih =>
    simp only [conv_round]
    split
    · exact ih conv hm
    · exact ih _ (List.mem_append_left _ hm)

/-- All rounds together grow the conversation by at most one message per
participant per round. -/
theorem conv_turns_fst_len (parts : List RParticipant) (t : Nat)
    (conv : List Message) :
    (conv_turns parts t conv).1.length ≤ conv.length + t * parts.length := by
  induction t generalizing conv with
  | zero => simp [conv_turns]
  | succ t ih =>
    simp only [conv_turns]
    have h1 := conv_round_fst_len parts conv
    have h2 := ih (conv_round parts conv).1
    have : (t + 1) * parts.length = t * parts.length + parts.length :=
      Nat.succ_mul t parts.length
    omega

/-- All rounds together yield at most one message per participant per
round. -/
theorem conv_turns_snd_len (parts : List RParticipant) (t : Nat)
    (conv : List Message) :
    (conv_turns parts t conv).2.length ≤ t * parts.length := by
  induction t generalizing conv with
  | zero => simp [conv_turns]
  | succ t ih =>
    simp only [conv_turns, List.length_append]
    have h1 := conv_round_snd_len parts conv
    have h2 := ih (conv_round parts conv).1
    have : (t + 1) * parts.length = t * parts.length + parts.length :=
      Nat.succ_mul t parts.length
    omega

/-- The conversation is append-only across rounds. -/
theorem conv_turns_mem (parts : List RParticipant) (t : Nat)
    (conv : List Message) (m : Message) (hm : m ∈ conv) :
    m ∈ (conv_turns parts t conv).1 := by
  induction t generalizing conv with
  | zero => simpa [conv_turns] using hm
  | succ t ih =>
    simp only [conv_turns]
    exact ih _ (conv_round_mem parts conv m hm)

/-- C2 counterexample: with one participant and `num_turns = 0` the
conversation already holds two messages (the system framing message and
the topic message), so the claimed bound `1 + num_turns * n` fails. -/
theorem c2_counterexample :
    ¬ ((run_conversation [silent_participant] 0 ("T")).1.length ≤
       1 + 0 * ([silent_participant] : List RParticipant).length) := by
  decide

/-- C2 as amended: after `run_conversation` is exhausted the conversation
holds at most `2 + num_turns * n` messages (the system framing message,
the topic message, and up to one per participant per round) and contains
the topic-announcement message; the yielded stream holds at most
`1 + num_turns * n` messages. -/
theorem c2_transcript_bounds (parts : List RParticipant) (num_turns : Nat)
    (topic : String) :
    (run_conversation parts num_turns topic).1.length ≤
      2 + num_turns * parts.length ∧
    (run_conversation parts num_turns topic).2.length ≤
      1 + num_turns * parts.length ∧
    initial_message topic ∈ (run_conversation parts num_turns topic).1 := by
  refine ⟨?_, ?_, ?_⟩
  · have := conv_turns_fst_len parts num_turns
      [system_message topic, initial_message topic]
    simpa [run_conversation] using this
  · have := conv_turns_snd_len parts num_turns
      [system_message topic, initial_message topic]
    simp only [run_conversation, List.length_cons]
    omega
  · exact conv_turns_mem parts num_turns _ _ (by simp)

/-- C4 counterexample: a participant labelled `Actor 1` replying
`"Actor 1: hi"` has its reply appended and yielded with the leading
self-identification prefix intact — `run_conversation` never strips it. -/
theorem c4_counterexample :
    (run_conversation [echo_participant] 1 ("T")).2.map
        (fun m => m.content) =
      ["The topic is: T. Share your thoughts.", "Actor 1: hi"] ∧
    ("Actor 1: hi" : String) ≠ "hi" := ⟨rfl, by decide⟩

/-- C4 as amended: every reply that is not empty or whitespace-only is
appended to the conversation and yielded verbatim, as an assistant
message whose content is exactly the reply text; no self-identification
prefix is ever stripped. -/
theorem c4_verbatim_append (rest : List RParticipant) (conv : List Message)
    (p : RParticipant)
    (h : pyStripChars (p.provider conv p.actor_id).toList ≠ []) :
    conv_round (p :: rest) conv =
      ((conv_round rest (conv ++
          [{ role := "assistant", content := p.provider conv p.actor_id,
             actor_id := some p.actor_id }])).1,
       { role := "assistant", content := p.provider conv p.actor_id,
         actor_id := some p.actor_id } ::
         (conv_round rest (conv ++
           [{ role := "assistant", content := p.provider conv p.actor_id,
              actor_id := some p.actor_id }])).2) := by
  have hc : ¬ ((pyStripChars (p.provider conv p.actor_id).toList == []) =
      true) := by
    simpa using h
  simp only [conv_round, if_neg hc]

/-- C4 witness: the amended claim at a concrete echoing participant. -/
theorem c4_witness :
    conv_round [echo_participant] [system_message ("T"), initial_message ("T")] =
      ([system_message ("T"), initial_message ("T"),
        { role := "assistant", content := "Actor 1: hi",
          actor_id := some "Actor 1" }],
       [{ role := "assistant", content := "Actor 1: hi",
          actor_id := some "Actor 1" }]) :=
  c4_verbatim_append [] [system_message ("T"), initial_message ("T")]
    echo_participant (by decide)

/-- C6: a reply that is empty or whitespace-only is skipped silently —
nothing is appended, nothing is yielded for that turn, and the round
continues exactly as it would for the remaining participants. -/
theorem c6_blank_reply_skipped (rest : List RParticipant)
    (conv : List Message) (p : RParticipant)
    (h : pyStripChars (p.provider conv p.actor_id).toList = []) :
    conv_round (p :: rest) conv = conv_round rest conv := by
  have hc : (pyStripChars (p.provider conv p.actor_id).toList == []) =
      true := beq_iff_eq.mpr h
  simp only [conv_round, if_pos hc]

/-- C6 witness: a whitespace-only reply at a concrete participant. -/
theorem c6_witness :
    pyStripChars
        (blank_participant.provider [] blank_participant.actor_id).toList
      = [] ∧
    conv_round [blank_participant] [] =
      conv_round ([] : List RParticipant) [] :=
  ⟨rfl, c6_blank_reply_skipped [] [] blank_participant rfl⟩

/-! ## Construction lemmas and claims C9, C10 -/

/-- Map congruence on members (helper). -/
theorem mapCongrOn {α β : Type} (l : List α) (f g : α → β)
    (h : ∀ a ∈ l, f a = g a) : l.map f = l.map g := by
  induction l with
  | nil => rfl
  | cons a t ih =>
    simp only [List.map_cons]
    rw [h a (List.mem_cons_self a t),
      ih (fun x hx => h x (List.mem_cons_of_mem a hx))]

/-- The code of a decimal digit character. -/
theorem dChar_toNat : ∀ n, n < 10 → (dChar n).toNat = 48 + n := by decide

/-- `digitsVal` peels the last digit. -/
theorem digitsVal_append_digit (xs : List Char) (c : Char) :
    digitsVal (xs ++ [c]) = digitsVal xs * 10 + (c.toNat - 48) := by
  simp [digitsVal, List.foldl_append]

/-- `digitsVal` is a left inverse of `pyNatCharsAux` given enough fuel. -/
theorem pyNatCharsAux_val :
    ∀ fuel n, n < fuel → digitsVal (pyNatCharsAux fuel n) = n := by
  intro fuel
  induction fuel with
  | zero => intro n h; omega
  | succ fuel ih =>
    intro n h
    simp only [pyNatCharsAux]
    split
    · rename_i h10
      simp [digitsVal, dChar_toNat n h10]
    · rename_i h10
      have hlt : n / 10 < n := Nat.div_lt_self (by omega) (by omega)
      rw [digitsVal_append_digit, ih (n / 10) (by omega),
        dChar_toNat (n % 10) (Nat.mod_lt n (by omega))]
      omega

/-- `digitsVal` inverts `pyNatChars`. -/
theorem pyNatChars_val (n : Nat) : digitsVal (pyNatChars n) = n :=
  pyNatCharsAux_val (n + 1) n (Nat.lt_succ_self n)

/-- Python's `str` on naturals is injective. -/
theorem pyNatChars_inj {m n : Nat} (h : pyNatChars m = pyNatChars n) :
    m = n := by
  have := congrArg digitsVal h
  rwa [pyNatChars_val, pyNatChars_val] at this

/-- Identity labels are injective in the index. -/
theorem actor_label_inj {m n : Nat} (h : actor_label m = actor_label n) :
    m = n := by
  have hd : actorLit ++ pyNatChars m = actorLit ++ pyNatChars n :=
    congrArg String.data h
  exact pyNatChars_inj (List.append_cancel_left hd)

/-- The labels assigned by the construction loop, in order. -/
theorem buildParticipants_labels (humanId : Nat) :
    ∀ (l : List Nat) (start : Nat),
      (buildParticipants humanId start l).map (fun p => p.actor_id) =
        (List.range l.length).map (fun i => actor_label (start + i)) := by
  intro l
  induction l with
  | nil => intro start; simp [buildParticipants]
  | cons pid rest ih =>
    intro start
    simp only [buildParticipants, List.map_cons, List.length_cons,
      List.range_succ_eq_map, List.map_map]
    rw [ih (start + 1)]
    simp only [Nat.add_zero]
    exact congrArg (List.cons (actor_label start))
      (mapCongrOn _ _ _ (fun i _ => by
        simp only [Function.comp_apply]
        exact congrArg actor_label (by omega)))

/-- With the human provider absent from the AI list, the first human
participant is the final one, labelled past all the AI labels. -/
theorem buildParticipants_find_human (humanId : Nat) :
    ∀ (ids : List Nat) (start : Nat), humanId ∉ ids →
      (buildParticipants humanId start (ids ++ [humanId])).find?
          (fun p => p.is_human) =
        some { provider := humanId,
               actor_id := actor_label (start + ids.length),
               is_human := true } := by
  intro ids
  induction ids with
  | nil =>
    intro start _
    simp [buildParticipants, List.find?]
  | cons pid rest ih =>
    intro start hmem
    simp only [List.mem_cons, not_or] at hmem
    have hne : (pid == humanId) = false :=
      beq_eq_false_iff_ne.mpr (fun he => hmem.1 he.symm)
    rw [show (pid :: rest) ++ [humanId] = pid :: (rest ++ [humanId]) from
      rfl]
    simp only [buildParticipants]
    rw [List.find?_cons_of_neg _ (by simp [hne]), ih (start + 1) hmem.2,
      show start + 1 + rest.length = start + (pid :: rest).length from by
        simp only [List.length_cons]
        omega]

/-- With the human provider absent from the AI list, exactly one
participant is flagged human. -/
theorem buildParticipants_one_human (humanId : Nat) :
    ∀ (ids : List Nat) (start : Nat), humanId ∉ ids →
      (buildParticipants humanId start (ids ++ [humanId])).countP
          (fun p => p.is_human) = 1 := by
  intro ids
  induction ids with
  | nil =>
    intro start _
    simp [buildParticipants, List.countP, List.countP.go]
  | cons pid rest ih =>
    intro start hmem
    simp only [List.mem_cons, not_or] at hmem
    have hne : (pid == humanId) = false :=
      beq_eq_false_iff_ne.mpr (fun he => hmem.1 he.symm)
    rw [show (pid :: rest) ++ [humanId] = pid :: (rest ++ [humanId]) from
      rfl]
    simp only [buildParticipants]
    rw [List.countP_cons]
    have hfalse :
        (if (fun p : Participant Nat => p.is_human)
            { provider := pid, actor_id := actor_label start,
              is_human := pid == humanId } then 1 else 0) = 0 := by
      simp [hne]
    rw [hfalse, Nat.add_zero]
    exact ih (start + 1) hmem.2

/-- The human flags of the constructed participants: all `false` except
the final human entry. -/
theorem buildParticipants_human_flags (humanId : Nat) :
    ∀ (ids : List Nat) (start : Nat), humanId ∉ ids →
      (buildParticipants humanId start (ids ++ [humanId])).map
          (fun p => p.is_human) =
        List.replicate ids.length false ++ [true] := by
  intro ids
  induction ids with
  | nil =>
    intro start _
    simp [buildParticipants]
  | cons pid rest ih =>
    intro start hmem
    simp only [List.mem_cons, not_or] at hmem
    have hne : (pid == humanId) = false :=
      beq_eq_false_iff_ne.mpr (fun he => hmem.1 he.symm)
    rw [show (pid :: rest) ++ [humanId] = pid :: (rest ++ [humanId]) from
      rfl]
    simp only [buildParticipants, List.map_cons, List.length_cons,
      List.replicate_succ, List.cons_append]
    rw [ih (start + 1) hmem.2]
    exact congrArg
      (fun b => b :: (List.replicate rest.length false ++ [true])) hne

/-- C9: for every game built from AI providers and a human provider (the
human not among the AI providers, every provider a distinct object), the
identity labels are pairwise distinct and exactly one participant is
flagged human. -/
theorem c9_labels_unique_one_human (providerIds : List Nat) (humanId : Nat)
    (h : humanId ∉ providerIds) :
    ((init_participants providerIds humanId).map
        (fun p => p.actor_id)).Nodup ∧
    (init_participants providerIds humanId).countP
        (fun p => p.is_human) = 1 := by
  constructor
  · rw [init_participants, buildParticipants_labels]
    refine List.Nodup.map ?_ (List.nodup_range _)
    intro a b hab
    have := actor_label_inj hab
    omega
  · exact buildParticipants_one_human humanId providerIds 1 h

/-- C9 witness. -/
theorem c9_witness :
    ((init_participants [10, 20] 30).map (fun p => p.actor_id)).Nodup ∧
    (init_participants [10, 20] 30).countP (fun p => p.is_human) = 1 :=
  c9_labels_unique_one_human [10, 20] 30 (by decide)

/-- C10: labels are assigned deterministically as `Actor 1 .. Actor n` in
input-list order (the construction is a pure function, so no shuffling
can occur), the human provider is always the last participant, and the
human's identity label is always `Actor n`, the highest-numbered one. -/
theorem c10_human_label_last (providerIds : List Nat) (humanId : Nat)
    (h : humanId ∉ providerIds) :
    (init_participants providerIds humanId).map (fun p => p.actor_id) =
      (List.range (providerIds.length + 1)).map
        (fun i => actor_label (i + 1)) ∧
    (init_participants providerIds humanId).map (fun p => p.is_human) =
      List.replicate providerIds.length false ++ [true] ∧
    human_actor_id providerIds humanId =
      some (actor_label (providerIds.length + 1)) := by
  refine ⟨?_, ?_, ?_⟩
  · rw [init_participants, buildParticipants_labels]
    simp only [List.length_append, List.length_cons, List.length_nil]
    apply mapCongrOn
    intro i _
    exact congrArg actor_label (by omega)
  · exact buildParticipants_human_flags humanId providerIds 1 h
  · rw [human_actor_id, init_participants,
      buildParticipants_find_human humanId providerIds 1 h]
    exact congrArg (fun n => some (actor_label n)) (by omega)

/-- C10 witness. -/
theorem c10_witness :
    (init_participants [10, 20] 30).map (fun p => p.actor_id) =
      (List.range 3).map (fun i => actor_label (i + 1)) ∧
    (init_participants [10, 20] 30).map (fun p => p.is_human) =
      List.replicate 2 false ++ [true] ∧
    human_actor_id [10, 20] 30 = some (actor_label 3) :=
  c10_human_label_last [10, 20] 30 (by decide)

/-! ## Majority-rule lemmas and claim C3 -/

/-- Boolean membership test used inside the tally code. -/
theorem anyBeq_iff (l : List String) (x : String) :
    l.any (fun z => z == x) = true ↔ x ∈ l := by
  induction l with
  | nil => simp
  | cons a t ih =>
    simp only [List.any_cons, Bool.or_eq_true, beq_iff_eq, ih,
      List.mem_cons]
    constructor
    · rintro (h | h)
      · exact Or.inl h.symm
      · exact Or.inr h
    · rintro (h | h)
      · exact Or.inl h.symm
      · exact Or.inr h

/-- `firstIdx` ignores a right extension when the element occurs. -/
theorem firstIdx_append_of_mem {x : String} :
    ∀ {ls : List String} (l2 : List String), x ∈ ls →
      firstIdx x (ls ++ l2) = firstIdx x ls := by
  intro ls
  induction ls with
  | nil => intro l2 h; cases h
  | cons a t ih =>
    intro l2 h
    show firstIdx x (a :: (t ++ l2)) = firstIdx x (a :: t)
    simp only [firstIdx]
    by_cases ha : (a == x) = true
    · simp [ha]
    · simp only [ha, Bool.false_eq_true, if_false]
      have hx : x ∈ t := by
        rcases List.mem_cons.mp h with h1 | h1
        · exact absurd (beq_iff_eq.mpr h1.symm) ha
        · exact h1
      rw [ih l2 hx]

/-- `firstIdx` of an absent element skips the whole list. -/
theorem firstIdx_append_of_not_mem {x : String} :
    ∀ {ls : List String} (l2 : List String), x ∉ ls →
      firstIdx x (ls ++ l2) = ls.length + firstIdx x l2 := by
  intro ls
  induction ls with
  | nil => intro l2 _; simp [firstIdx]
  | cons a t ih =>
    intro l2 h
    simp only [List.mem_cons, not_or] at h
    have ha : (a == x) = false :=
      beq_eq_false_iff_ne.mpr (fun he => h.1 he.symm)
    show firstIdx x (a :: (t ++ l2)) = (a :: t).length + firstIdx x l2
    simp only [firstIdx, ha, Bool.false_eq_true, if_false, List.length_cons]
    rw [ih l2 h.2]
    omega

/-- A member's first index is within the list. -/
theorem firstIdx_lt_length {x : String} :
    ∀ {ls : List String}, x ∈ ls → firstIdx x ls < ls.length := by
  intro ls
  induction ls with
  | nil => intro h; cases h
  | cons a t ih =>
    intro h
    simp only [firstIdx, List.length_cons]
    by_cases ha : (a == x) = true
    · simp [ha]
    · simp only [ha, Bool.false_eq_true, if_false]
      have hx : x ∈ t := by
        rcases List.mem_cons.mp h with h1 | h1
        · exact absurd (beq_iff_eq.mpr h1.symm) ha
        · exact h1
      have := ih hx
      omega

/-- Two members with the same first index are equal. -/
theorem firstIdx_inj {x y : String} :
    ∀ {ls : List String}, x ∈ ls → y ∈ ls →
      firstIdx x ls = firstIdx y ls → x = y := by
  intro ls
  induction ls with
  | nil => intro h; cases h
  | cons a t ih =>
    intro hx hy hidx
    simp only [firstIdx] at hidx
    by_cases hax : (a == x) = true
    · by_cases hay : (a == y) = true
      · exact (beq_iff_eq.mp hax).symm.trans (beq_iff_eq.mp hay)
      · simp [hax, hay] at hidx
    · by_cases hay : (a == y) = true
      · simp [hax, hay] at hidx
      · simp only [hax, hay, Bool.false_eq_true, if_false,
          Nat.add_right_cancel_iff] at hidx
        have hx' : x ∈ t := by
          rcases List.mem_cons.mp hx with h1 | h1
          · exact absurd (beq_iff_eq.mpr h1.symm) hax
          · exact h1
        have hy' : y ∈ t := by
          rcases List.mem_cons.mp hy with h1 | h1
          · exact absurd (beq_iff_eq.mpr h1.symm) hay
          · exact h1
        exact ih hx' hy' hidx

/-- One right-extension step of `ddKF`. -/
theorem ddKF_append (ls : List String) (y : String) :
    ddKF (ls ++ [y]) =
      if (ddKF ls).any (fun z => z == y) then ddKF ls
      else ddKF ls ++ [y] := by
  simp only [ddKF, List.foldl_append, List.foldl_cons, List.foldl_nil]

/-- `ddKF` has the same members as its input. -/
theorem mem_ddKF : ∀ (ls : List String) (x : String),
    x ∈ ddKF ls ↔ x ∈ ls := by
  intro ls
  induction ls using List.reverseRecOn with
  | nil => intro x; simp [ddKF]
  | append_singleton ls y ih =>
    intro x
    rw [ddKF_append]
    by_cases hy : ((ddKF ls).any (fun z => z == y)) = true
    · have hy' : y ∈ ls := (ih y).mp ((anyBeq_iff (ddKF ls) y).mp hy)
      rw [if_pos hy]
      simp only [List.mem_append, List.mem_singleton, ih x]
      constructor
      · exact Or.inl
      · rintro (h | h)
        · exact h
        · exact h ▸ hy'
    · rw [if_neg hy]
      simp only [List.mem_append, List.mem_singleton, ih x]

/-- `ddKF` produces no duplicates. -/
theorem ddKF_nodup : ∀ (ls : List String), (ddKF ls).Nodup := by
  intro ls
  induction ls using List.reverseRecOn with
  | nil => simp [ddKF]
  | append_singleton ls y ih =>
    rw [ddKF_append]
    by_cases hy : ((ddKF ls).any (fun z => z == y)) = true
    · rw [if_pos hy]; exact ih
    · have hy' : y ∉ ddKF ls := fun hm => hy ((anyBeq_iff _ _).mpr hm)
      rw [if_neg hy, List.nodup_append]
      refine ⟨ih, List.nodup_singleton y, ?_⟩
      intro a ha hb
      simp only [List.mem_singleton] at hb
      exact hy' (hb ▸ ha)

/-- The keys of `ddKF` appear in strictly increasing first-occurrence
order. -/
theorem ddKF_sorted (ls : List String) :
    (ddKF ls).Pairwise (fun a b => firstIdx a ls < firstIdx b ls) := by
  induction ls using List.reverseRecOn with
  | nil => simp [ddKF]
  | append_singleton ls y ih =>
    rw [ddKF_append]
    by_cases hy : ((ddKF ls).any (fun z => z == y)) = true
    · rw [if_pos hy]
      refine ih.imp_of_mem ?_
      intro a b ha hb hab
      rw [firstIdx_append_of_mem [y] ((mem_ddKF ls a).mp ha),
        firstIdx_append_of_mem [y] ((mem_ddKF ls b).mp hb)]
      exact hab
    · have hy' : y ∉ ls := fun hm =>
        hy ((anyBeq_iff _ _).mpr ((mem_ddKF ls y).mpr hm))
      rw [if_neg hy, List.pairwise_append]
      refine ⟨ih.imp_of_mem ?_, List.pairwise_singleton _ _, ?_⟩
      · intro a b ha hb hab
        rw [firstIdx_append_of_mem [y] ((mem_ddKF ls a).mp ha),
          firstIdx_append_of_mem [y] ((mem_ddKF ls b).mp hb)]
        exact hab
      · intro a ha b hb
        simp only [List.mem_singleton] at hb
        subst hb
        rw [firstIdx_append_of_mem [b] ((mem_ddKF ls a).mp ha),
          firstIdx_append_of_not_mem [b] hy']
        have h1 := firstIdx_lt_length ((mem_ddKF ls a).mp ha)
        omega

/-- `any` over a mapped list (helper; the library version here is
restricted to endofunctions). -/
theorem anyMapOn {α β : Type} (l : List α) (f : α → β) (p : β → Bool) :
    (l.map f).any p = l.any (fun a => p (f a)) := by
  induction l with
  | nil => rfl
  | cons a t ih => simp only [List.map_cons, List.any_cons, ih]

/-- The tally's key test agrees with membership in the deduplicated key
list. -/
theorem canonTally_keytest (ls : List String) (x : String) :
    (canonTally ls).any (fun kv => kv.1 == x) =
      (ddKF ls).any (fun z => z == x) := by
  rw [canonTally, anyMapOn]

/-- The Python dict tally equals its canonical form: keys in
first-occurrence order, each paired with its total count. -/
theorem tally_eq_canon : ∀ ls : List String,
    ls.foldl tallyAdd [] = canonTally ls := by
  intro ls
  induction ls using List.reverseRecOn with
  | nil => rfl
  | append_singleton ls x ih =>
    rw [List.foldl_append, List.foldl_cons, List.foldl_nil, ih]
    by_cases hx : x ∈ ls
    · have hb : ((ddKF ls).any (fun z => z == x)) = true :=
        (anyBeq_iff _ _).mpr ((mem_ddKF ls x).mpr hx)
      rw [tallyAdd, canonTally_keytest, if_pos hb, canonTally, canonTally,
        ddKF_append, if_pos hb, List.map_map]
      apply mapCongrOn
      intro k hk
      show (if k == x then (k, ls.count k + 1) else (k, ls.count k)) =
        (k, (ls ++ [x]).count k)
      by_cases hkx : (k == x) = true
      · have hk2 := beq_iff_eq.mp hkx
        subst hk2
        simp [List.count_append, List.count_singleton]
      · rw [if_neg hkx]
        have hxk : (x == k) = false :=
          beq_eq_false_iff_ne.mpr
            (fun he => hkx (beq_iff_eq.mpr he.symm))
        simp [List.count_append, List.count_singleton, hxk]
    · have hbn : ¬ ((ddKF ls).any (fun z => z == x)) = true := fun hc =>
        hx ((mem_ddKF ls x).mp ((anyBeq_iff _ _).mp hc))
      rw [tallyAdd, canonTally_keytest, if_neg hbn, canonTally, canonTally,
        ddKF_append, if_neg hbn, List.map_append]
      have hxcount : ([x] : List String).map
          (fun k => (k, (ls ++ [x]).count k)) = [(x, 1)] := by
        simp [List.count_append, List.count_singleton,
          List.count_eq_zero_of_not_mem hx]
      rw [hxcount]
      refine congrArg (fun t => t ++ [(x, 1)]) ?_
      apply mapCongrOn
      intro k hk
      have hkls : k ∈ ls := (mem_ddKF ls k).mp hk
      have hxk : (x == k) = false :=
        beq_eq_false_iff_ne.mpr (fun he => hx (he ▸ hkls))
      simp [List.count_append, List.count_singleton, hxk]

/-- The head of a list bounds the first-maximum from below. -/
theorem FirstMax_head_le {l : List (String × Nat)} {p b : String × Nat}
    (h : FirstMax (p :: l) b) : p.2 ≤ b.2 := by
  obtain ⟨pre, post, heq, hpre, hpost⟩ := h
  cases pre with
  | nil =>
    simp only [List.nil_append] at heq
    injection heq with h1 _
    exact h1 ▸ Nat.le_refl _
  | cons q pre' =>
    simp only [List.cons_append] at heq
    injection heq with h1 _
    exact Nat.le_of_lt (h1 ▸ hpre q (List.mem_cons_self q pre'))

/-- The fold at the heart of `max(vote_counts, key=...)` computes the
first entry of maximal count. -/
theorem pyFoldMax_spec : ∀ (rest : List (String × Nat)) (kv : String × Nat),
    FirstMax (kv :: rest)
      (rest.foldl (fun best p => if p.2 > best.2 then p else best) kv) := by
  intro rest
  induction rest with
  | nil =>
    intro kv
    exact ⟨[], [], rfl, by simp, by simp⟩
  | cons p rest' ih =>
    intro kv
    rw [List.foldl_cons]
    by_cases hgt : p.2 > kv.2
    · rw [if_pos hgt]
      obtain ⟨pre, post, heq, hpre, hpost⟩ := ih p
      have hpb : p.2 ≤
          (rest'.foldl (fun best p => if p.2 > best.2 then p else best)
            p).2 :=
        FirstMax_head_le (ih p)
      refine ⟨kv :: pre, post, ?_, ?_, hpost⟩
      · rw [List.cons_append, ← heq]
      · intro q hq
        rcases List.mem_cons.mp hq with h1 | h1
        · subst h1
          exact Nat.lt_of_lt_of_le hgt hpb
        · exact hpre q h1
    · rw [if_neg hgt]
      obtain ⟨pre, post, heq, hpre, hpost⟩ := ih kv
      cases pre with
      | nil =>
        simp only [List.nil_append] at heq
        injection heq with h1 h2
        refine ⟨[], p :: rest', by simp only [List.nil_append, ← h1], by
          simp, ?_⟩
        intro q hq
        rcases List.mem_cons.mp hq with h3 | h3
        · subst h3
          exact h1 ▸ Nat.le_of_not_lt hgt
        · exact hpost q (h2 ▸ h3)
      | cons q0 pre' =>
        simp only [List.cons_append] at heq
        injection heq with h1 h2
        have hkv : kv.2 <
            (rest'.foldl (fun best p => if p.2 > best.2 then p else best)
              kv).2 :=
          h1.symm ▸ hpre q0 (List.mem_cons_self q0 pre')
        refine ⟨kv :: p :: pre', post, ?_, ?_, hpost⟩
        · simp only [List.cons_append]
          rw [← h2]
        · intro q hq
          rcases List.mem_cons.mp hq with h3 | h3
          · subst h3
            exact hkv
          · rcases List.mem_cons.mp h3 with h4 | h4
            · subst h4
              exact Nat.lt_of_le_of_lt (Nat.le_of_not_lt hgt) hkv
            · exact hpre q (List.mem_cons_of_mem q0 h4)

/-- `pyMaxKey` of a nonempty tally returns the key of its first
maximal-count entry. -/
theorem pyMaxKey_spec (l : List (String × Nat)) (h : l ≠ []) :
    ∃ b, FirstMax l b ∧ pyMaxKey l = some b.1 := by
  cases l with
  | nil => exact absurd rfl h
  | cons kv rest => exact ⟨_, pyFoldMax_spec rest kv, rfl⟩

/-- Membership in the canonical tally. -/
theorem mem_canonTally {ls : List String} {q : String × Nat} :
    q ∈ canonTally ls ↔ q.1 ∈ ddKF ls ∧ q.2 = ls.count q.1 := by
  simp only [canonTally, List.mem_map]
  constructor
  · rintro ⟨k, hk, rfl⟩
    exact ⟨hk, rfl⟩
  · rintro ⟨h1, h2⟩
    exact ⟨q.1, h1, by rw [← h2]⟩

/-- The first maximal-count entry of the canonical tally is exactly the
spec-side majority winner. -/
theorem winnerL_of_firstMax {ls : List String} {b : String × Nat}
    (h : FirstMax (canonTally ls) b) : IsWinnerL ls b.1 := by
  obtain ⟨pre, post, heq, hpre, hpost⟩ := h
  have hbmem : b ∈ canonTally ls := by
    rw [heq]
    exact List.mem_append_right _ (List.mem_cons_self _ _)
  obtain ⟨hbk, hbv⟩ := mem_canonTally.mp hbmem
  have hbls : b.1 ∈ ls := (mem_ddKF ls b.1).mp hbk
  refine ⟨hbls, ?_, ?_⟩
  · intro l hl
    have hlc : (l, ls.count l) ∈ canonTally ls :=
      mem_canonTally.mpr ⟨(mem_ddKF ls l).mpr hl, rfl⟩
    rw [heq] at hlc
    rw [← hbv]
    rcases List.mem_append.mp hlc with h1 | h1
    · exact Nat.le_of_lt (hpre _ h1)
    · rcases List.mem_cons.mp h1 with h2 | h2
      · exact Nat.le_of_eq (congrArg Prod.snd h2)
      · exact hpost _ h2
  · intro l hl hcnt
    have hlc : (l, ls.count l) ∈ canonTally ls :=
      mem_canonTally.mpr ⟨(mem_ddKF ls l).mpr hl, rfl⟩
    rw [heq] at hlc
    rcases List.mem_append.mp hlc with h1 | h1
    · have hlt := hpre _ h1
      rw [hbv] at hlt
      simp only at hlt
      omega
    · rcases List.mem_cons.mp h1 with h2 | h2
      · have hlb : l = b.1 := congrArg Prod.fst h2
        rw [← hlb]
      · have hkeys : ddKF ls =
            pre.map Prod.fst ++ b.1 :: post.map Prod.fst := by
          have hmapid : (canonTally ls).map Prod.fst = ddKF ls := by
            rw [canonTally, List.map_map]
            exact List.map_id _
          rw [← hmapid, heq]
          simp [List.map_append]
        have hsort := ddKF_sorted ls
        rw [hkeys, List.pairwise_append] at hsort
        obtain ⟨-, hsort2, -⟩ := hsort
        rw [List.pairwise_cons] at hsort2
        have hlm : l ∈ post.map Prod.fst :=
          List.mem_map.mpr ⟨(l, ls.count l), h2, rfl⟩
        exact Nat.le_of_lt (hsort2.1 l hlm)

/-- The majority winner is unique. -/
theorem winnerL_unique {ls : List String} {w1 w2 : String}
    (h1 : IsWinnerL ls w1) (h2 : IsWinnerL ls w2) : w1 = w2 := by
  obtain ⟨m1, c1, t1⟩ := h1
  obtain ⟨m2, c2, t2⟩ := h2
  have hc : ls.count w1 = ls.count w2 :=
    Nat.le_antisymm (c2 w1 m1) (c1 w2 m2)
  have hi1 : firstIdx w1 ls ≤ firstIdx w2 ls := t1 w2 m2 hc.symm
  have hi2 : firstIdx w2 ls ≤ firstIdx w1 ls := t2 w1 m1 hc
  exact firstIdx_inj m1 m2 (Nat.le_antisymm hi1 hi2)

/-- C3: in majority mode, `human_caught` is true exactly when the human's
label is the majority winner — the voted-for label of maximal tally
count, ties broken towards the label first inserted into the tally map
(the label whose first occurrence in the vote order is earliest) — and an
empty vote list yields `human_caught = false`. -/
theorem c3_majority_winner (votes : List VoteResult) (humanId : String) :
    (human_caught votes humanId = true ↔ IsWinner votes humanId) ∧
    human_caught [] humanId = false := by
  refine ⟨?_, rfl⟩
  have hvc : vote_counts votes =
      canonTally (votes.map VoteResult.voted_for) := by
    rw [vote_counts, ← List.foldl_map, tally_eq_canon]
  by_cases hv : votes = []
  · subst hv
    constructor
    · intro h
      simp [human_caught, vote_counts, pyMaxKey] at h
    · intro hw
      obtain ⟨hmem, -, -⟩ := hw
      simp at hmem
  · have hlsne : votes.map VoteResult.voted_for ≠ [] := by
      simpa using hv
    have hddne : canonTally (votes.map VoteResult.voted_for) ≠ [] := by
      rw [canonTally]
      intro hc
      have hdk : ddKF (votes.map VoteResult.voted_for) = [] :=
        List.map_eq_nil_iff.mp hc
      rcases List.exists_mem_of_ne_nil _ hlsne with ⟨a, ha⟩
      have : a ∈ ddKF (votes.map VoteResult.voted_for) :=
        (mem_ddKF _ a).mpr ha
      rw [hdk] at this
      cases this
    obtain ⟨b, hfm, hpm⟩ := pyMaxKey_spec _ hddne
    have hwb : IsWinnerL (votes.map VoteResult.voted_for) b.1 :=
      winnerL_of_firstMax hfm
    have hcaught : human_caught votes humanId = (b.1 == humanId) := by
      rw [human_caught, hvc, hpm]
    rw [hcaught]
    constructor
    · intro hbeq
      exact (beq_iff_eq.mp hbeq) ▸ hwb
    · intro hw
      exact beq_iff_eq.mpr (winnerL_unique hwb hw)

end Imitgame
